import Mathlib

/-!
Verification of the file-copy program `my_copy.c`.

The program is modelled as a pure function over an environment that fixes
the command-line arguments, the file system (an association list from path
to byte content), the standard-input event stream of the confirmation
prompt, and oracles for the outcomes of the read/write/close system calls
of the transfer phase.  Bytes are natural numbers; messages written to the
standard streams are modelled as abstract tokens carrying the interpolated
path names.
-/

namespace MyCopy

/-- Result of one `read(STDIN_FILENO, buf, 1)` call: either the call fails
(returns -1) or it delivers one byte.  End of stream is modelled by the
event list running out, in which case the call returns 0 and delivers
nothing. -/
inductive StdinEv
  | rerr
  | rbyte (b : Nat)
deriving DecidableEq

/-- Messages emitted on stdout / stderr, abstracting the literal strings of
the C program; path-naming messages carry the interpolated path. -/
inductive Msg
  | usage
  | promptOverwrite (dst : String)
  | proceeding
  | cancelled
  | invalidInput
  | errReadInput
  | errOpenSrc (src : String)
  | errCreateDst (dst : String)
  | errWriteDst
  | errShortWrite
  | errReadSrc
  | errCloseSrc
  | errCloseDst
  | success (src dst : String)
deriving DecidableEq

/-- File-system lookup: `access(p, F_OK) == 0` iff `fsGet fs p` is `some`,
and the `some` value is the file content. -/
def fsGet (fs : List (String × List Nat)) (p : String) : Option (List Nat) :=
  match fs with
  | [] => none
  | (q, c) :: rest => if q = p then some c else fsGet rest p

/-- File-system update: sets the content of path `p` to `c`, creating the
file when absent. -/
def fsSet (fs : List (String × List Nat)) (p : String) (c : List Nat) :
    List (String × List Nat) :=
  match fs with
  | [] => [(p, c)]
  | (q, d) :: rest => if q = p then (p, c) :: rest else (q, d) :: fsSet rest p c

/-- `response == 121 or response == 89`, the test of line 109 of the source. -/
def isYes (b : Nat) : Bool := b == 121 || b == 89

/-- `response == 110 or response == 78`, the test of line 115 of the source. -/
def isNo (b : Nat) : Bool := b == 110 || b == 78

/-- A byte that is neither an affirmative nor a negative answer. -/
def invalidByte (b : Nat) : Bool := !(isYes b || isNo b)

/-- Status of the confirmation loop (lines 87-126 of the source):
`proceed` = answer was y/Y, `cancel` = answer was n/N (program returns 0),
`rfail` = the answer-byte read returned -1 (program returns 1),
`looping` = the loop has not terminated within the observed number of
iterations. -/
inductive CStatus
  | proceed
  | cancel
  | rfail
  | looping
deriving DecidableEq

/-- Observable state of the confirmation loop when it stops or when
observation ends: status, the current value of the `response` variable,
the remaining stdin events, the stdout and stderr messages emitted, and
the number of loop iterations executed. -/
structure CState where
  status : CStatus
  resp : Nat
  stdin : List StdinEv
  stdout : List Msg
  stderr : List Msg
  cycles : Nat
deriving DecidableEq

/-- The confirmation loop of lines 87-126, observed for `fuel` iterations.
Each iteration reads one answer byte (a failure of this read is fatal; at
end of stream `response` keeps its previous value), then reads one further
byte whose result the program ignores (line 104 discards the return value),
then tests `response`. -/
def confirmLoop (fuel : Nat) (resp : Nat) (stdin : List StdinEv) : CState :=
  match fuel with
  | 0 => ⟨.looping, resp, stdin, [], [], 0⟩
  | fuel' + 1 =>
    match stdin with
    | .rerr :: rest => ⟨.rfail, resp, rest, [], [.errReadInput], 1⟩
    | .rbyte b :: rest =>
      if isYes b then ⟨.proceed, b, rest.tail, [.proceeding], [], 1⟩
      else if isNo b then ⟨.cancel, b, rest.tail, [.cancelled], [], 1⟩
      else
        let s := confirmLoop fuel' b rest.tail
        ⟨s.status, s.resp, s.stdin, .invalidInput :: s.stdout, s.stderr, s.cycles + 1⟩
    | [] =>
      if isYes resp then ⟨.proceed, resp, [], [.proceeding], [], 1⟩
      else if isNo resp then ⟨.cancel, resp, [], [.cancelled], [], 1⟩
      else
        let s := confirmLoop fuel' resp []
        ⟨s.status, s.resp, s.stdin, .invalidInput :: s.stdout, s.stderr, s.cycles + 1⟩

/-- Outcome of one `read(source_fd, buffer, 4096)` call of the transfer
loop: failure (-1), or delivery of up to `k` bytes (clamped to the buffer
size and to the bytes remaining; at end of file the call returns 0). -/
inductive REv
  | rerr
  | rchunk (k : Nat)
deriving DecidableEq

/-- Outcome of one `write(dest_fd, buffer, n)` call: failure (-1, nothing
written), a short write delivering fewer than the requested bytes, or a
complete write. -/
inductive WEv
  | werr
  | wshort (k : Nat)
  | wok
deriving DecidableEq

/-- Status of the transfer loop of lines 189-228: clean end of file, write
failure (line 198), short write (line 210), or read failure (line 222). -/
inductive TStatus
  | ok
  | wfail
  | wshortFail (req got : Nat)
  | rfail
deriving DecidableEq

/-- Observable state of the transfer loop: bytes written to the
destination, final status, the trace of write calls as
(requested bytes, return value) pairs, and the total number of bytes
successfully read from the source. -/
structure TState where
  written : List Nat
  status : TStatus
  wtrace : List (Nat × Int)
  totalRead : Nat
deriving DecidableEq

/-- The next read outcome; an exhausted oracle list defaults to a full
successful read. -/
def rHead (rs : List REv) : REv := rs.headD (.rchunk 4096)

/-- The next write outcome; an exhausted oracle list defaults to a
complete write. -/
def wHead (ws : List WEv) : WEv := ws.headD .wok

/-- Number of bytes a successful `read(source_fd, buffer, 4096)` call
delivers when `len` bytes remain: the oracle's choice `k`, clamped to the
buffer size and to the remaining bytes, and at least one byte (a blocking
read on a regular file returns 0 only at end of file). -/
def chunkLen (k len : Nat) : Nat := min (max k 1) (min 4096 len)

/-- The transfer loop of lines 189-228, with an explicit fuel argument.
Every iteration that recurses consumes at least one source byte, so
`rem.length + 1` fuel always suffices (see `copyLoop`).  Read outcomes are
drawn from `rs`; write outcomes are drawn from `ws`. -/
def copyLoopF : Nat → List Nat → List REv → List WEv → TState
  | 0, _, _, _ => ⟨[], .ok, [], 0⟩
  | fuel + 1, rem, rs, ws =>
    match rHead rs with
    | .rerr => ⟨[], .rfail, [], 0⟩
    | .rchunk k =>
      match rem with
      | [] => ⟨[], .ok, [], 0⟩
      | a :: rem' =>
        let n := chunkLen k (a :: rem').length
        let chunk := (a :: rem').take n
        match wHead ws with
        | .werr => ⟨[], .wfail, [(n, -1)], n⟩
        | .wshort j =>
          let g := min j (n - 1)
          ⟨chunk.take g, .wshortFail n g, [(n, (g : Int))], n⟩
        | .wok =>
          let s := copyLoopF fuel ((a :: rem').drop n) rs.tail ws.tail
          ⟨chunk ++ s.written, s.status, (n, (n : Int)) :: s.wtrace, n + s.totalRead⟩

/-- The transfer loop run to completion on source content `c`. -/
def copyLoop (c : List Nat) (rs : List REv) (ws : List WEv) : TState :=
  copyLoopF (c.length + 1) c rs ws

/-- Full observable outcome of a program run.  `exit = none` means the
process has not terminated within the observed prompt iterations.
`opens` records the successfully opened or created files in order;
`srcClosed` / `dstClosed` record whether `close` was called on the
respective descriptor. -/
structure Out where
  exit : Option Nat
  fs : List (String × List Nat)
  stdout : List Msg
  stderr : List Msg
  stdinRest : List StdinEv
  opens : List String
  cycles : Nat
  wtrace : List (Nat × Int)
  totalRead : Nat
  totalWritten : Nat
  srcClosed : Bool
  dstClosed : Bool
deriving DecidableEq

/-- Environment of a run: the positional arguments (`argv[1..]`, so
`argc = args.length + 1`), the file system, the stdin event stream, the
value the uninitialized `response` variable happens to hold, the number of
prompt iterations observed, and the system-call oracles of the transfer
phase. -/
structure Env where
  args : List String
  fs : List (String × List Nat)
  stdin : List StdinEv
  initResponse : Nat
  fuel : Nat
  srcOpenOk : Bool
  dstOpenOk : Bool
  rs : List REv
  ws : List WEv
  srcCloseOk : Bool
  dstCloseOk : Bool
deriving DecidableEq

/-- The transfer phase, lines 137-258: open source (fails when the file is
absent or `srcOpenOk` is false), open/create destination with truncation
(fails when `dstOpenOk` is false; source is then closed), run the transfer
loop, close both descriptors, report. -/
def transfer (src dst : String) (e : Env) (stdout0 : List Msg)
    (sRest : List StdinEv) (cyc : Nat) : Out :=
  match fsGet e.fs src, e.srcOpenOk with
  | some c, true =>
    if e.dstOpenOk then
      match copyLoop c e.rs e.ws with
      | ⟨w, .ok, wt, tr⟩ =>
        if e.srcCloseOk then
          if e.dstCloseOk then
            ⟨some 0, fsSet e.fs dst w, stdout0 ++ [.success src dst], [],
              sRest, [src, dst], cyc, wt, tr, w.length, true, true⟩
          else
            ⟨some 1, fsSet e.fs dst w, stdout0, [.errCloseDst],
              sRest, [src, dst], cyc, wt, tr, w.length, true, true⟩
        else
          ⟨some 1, fsSet e.fs dst w, stdout0, [.errCloseSrc],
            sRest, [src, dst], cyc, wt, tr, w.length, true, true⟩
      | ⟨w, .wfail, wt, tr⟩ =>
        ⟨some 1, fsSet e.fs dst w, stdout0, [.errWriteDst],
          sRest, [src, dst], cyc, wt, tr, w.length, true, true⟩
      | ⟨w, .wshortFail _ _, wt, tr⟩ =>
        ⟨some 1, fsSet e.fs dst w, stdout0, [.errShortWrite],
          sRest, [src, dst], cyc, wt, tr, w.length, true, true⟩
      | ⟨w, .rfail, wt, tr⟩ =>
        ⟨some 1, fsSet e.fs dst w, stdout0, [.errReadSrc],
          sRest, [src, dst], cyc, wt, tr, w.length, true, true⟩
    else
      ⟨some 1, e.fs, stdout0, [.errCreateDst dst], sRest, [src], cyc,
        [], 0, 0, true, false⟩
  | _, _ =>
    ⟨some 1, e.fs, stdout0, [.errOpenSrc src], sRest, [], cyc,
      [], 0, 0, false, false⟩

/-- The whole program (`main`): argument validation (line 45), destination
existence check and confirmation prompt (lines 67-127), then the transfer
phase. -/
def run (e : Env) : Out :=
  match e.args with
  | [src, dst] =>
    match fsGet e.fs dst with
    | some _ =>
      match confirmLoop e.fuel e.initResponse e.stdin with
      | ⟨.cancel, _, rest, pout, perr, cyc⟩ =>
        ⟨some 0, e.fs, .promptOverwrite dst :: pout, perr, rest, [], cyc,
          [], 0, 0, false, false⟩
      | ⟨.rfail, _, rest, pout, perr, cyc⟩ =>
        ⟨some 1, e.fs, .promptOverwrite dst :: pout, perr, rest, [], cyc,
          [], 0, 0, false, false⟩
      | ⟨.looping, _, rest, pout, perr, cyc⟩ =>
        ⟨none, e.fs, .promptOverwrite dst :: pout, perr, rest, [], cyc,
          [], 0, 0, false, false⟩
      | ⟨.proceed, _, rest, pout, _, cyc⟩ =>
        transfer src dst e (.promptOverwrite dst :: pout) rest cyc
    | none => transfer src dst e [] e.stdin 0
  | _ =>
    ⟨some 1, e.fs, [], [.usage], e.stdin, [], 0, [], 0, 0, false, false⟩

/-- Every stdin event delivers a byte that is neither a yes- nor a
no-answer (no read failures). -/
def allInvalid (l : List StdinEv) : Bool :=
  l.all fun ev =>
    match ev with
    | .rbyte b => invalidByte b
    | .rerr => false

/-- Environment: source `a` holds two bytes, destination `b` absent, all
system calls succeed. -/
def envC1 : Env := ⟨["a", "b"], [("a", [104, 105])], [], 0, 1, true, true, [], [], true, true⟩

/-- Environment with an empty argument list (`argc = 1`). -/
def envC2 : Env := ⟨[], [("b", [9])], [], 0, 0, true, true, [], [], true, true⟩

/-- Environment: destination `b` exists and the user answers `n` then a
line terminator. -/
def envC3 : Env :=
  ⟨["a", "b"], [("a", [104]), ("b", [9])], [.rbyte 110, .rbyte 10], 0, 5, true, true, [], [], true, true⟩

/-- Environment: destination `b` exists and stdin is an endless stream of
the invalid answer `x` followed by a line terminator. -/
def envC4 : Env :=
  ⟨["a", "b"], [("a", [104]), ("b", [9])], [.rbyte 120, .rbyte 10], 99, 3, true, true, [], [], true, true⟩

/-- Environment: destination `b` exists, the answer-byte read delivers `y`
and the following read of the line terminator fails. -/
def envC5 : Env :=
  ⟨["a", "b"], [("a", [104]), ("b", [9])], [.rbyte 121, .rerr], 0, 5, true, true, [], [], true, true⟩

/-- Environment: destination `b` exists and the very first answer-byte
read fails. -/
def envC5w : Env :=
  ⟨["a", "b"], [("a", [104]), ("b", [9])], [.rerr], 0, 5, true, true, [], [], true, true⟩

/-- Environment: neither the source `a` nor the destination `b` exists. -/
def envC6 : Env := ⟨["a", "b"], [], [], 0, 0, true, true, [], [], true, true⟩

/-- Environment: source `a` holds two bytes and the first write is short,
delivering zero bytes. -/
def envC7 : Env := ⟨["a", "b"], [("a", [1, 2])], [], 0, 1, true, true, [], [.wshort 0], true, true⟩

/-- Environment: destination `b` exists, stdin holds the single byte `y`
and then reaches end of stream. -/
def envC8 : Env :=
  ⟨["a", "b"], [("a", [104]), ("b", [9])], [.rbyte 121], 0, 5, true, true, [], [], true, true⟩

/-- Environment: destination `b` exists and the user answers `n` then a
line terminator; used to exercise the per-cycle stdin consumption bound. -/
def envC8w : Env :=
  ⟨["a", "b"], [("a", [104]), ("b", [9])], [.rbyte 110, .rbyte 10], 0, 5, true, true, [], [], true, true⟩

/-- Environment: source `a` holds two bytes and the first write call
fails (returns -1). -/
def envC9 : Env := ⟨["a", "b"], [("a", [5, 6])], [], 0, 1, true, true, [], [.werr], true, true⟩

/-- Environment: source `a` holds three bytes, the first read delivers one
byte which is written in full, and the second write call fails. -/
def envC9w : Env :=
  ⟨["a", "b"], [("a", [1, 2, 3])], [], 0, 1, true, true, [.rchunk 1], [.wok, .werr], true, true⟩

/-- Updating a path and reading it back yields the new content. -/
theorem fsGet_fsSet_self (fs : List (String × List Nat)) (p : String) (c : List Nat) :
    fsGet (fsSet fs p c) p = some c := by
  induction fs with
  | nil => simp [fsSet, fsGet]
  | cons hd tl ih =>
    obtain ⟨q, d⟩ := hd
    by_cases h : q = p
    · simp [fsSet, fsGet, h]
    · simp [fsSet, fsGet, h, ih]

/-- The confirmation loop only ever prints the proceeding, cancellation and
re-prompt messages on stdout. -/
theorem confirmLoop_stdout_mem (fuel resp : Nat) (stdin : List StdinEv) :
    ∀ m ∈ (confirmLoop fuel resp stdin).stdout,
      m = Msg.proceeding ∨ m = Msg.cancelled ∨ m = Msg.invalidInput := by
  induction fuel generalizing resp stdin with
  | zero => simp [confirmLoop]
  | succ fuel ih =>
    rcases stdin with _ | ⟨ev, rest⟩
    · by_cases hy : isYes resp = true
      · simp [confirmLoop, hy]
      · by_cases hn : isNo resp = true
        · simp [confirmLoop, hy, hn]
        · intro m hm
          simp only [confirmLoop, hy, hn, if_false, Bool.false_eq_true,
            List.mem_cons] at hm
          rcases hm with hm | hm
          · exact Or.inr (Or.inr hm)
          · exact ih resp [] m hm
    · rcases ev with _ | b
      · simp [confirmLoop]
      · by_cases hy : isYes b = true
        · simp [confirmLoop, hy]
        · by_cases hn : isNo b = true
          · simp [confirmLoop, hy, hn]
          · intro m hm
            simp only [confirmLoop, hy, hn, if_false, Bool.false_eq_true,
              List.mem_cons] at hm
            rcases hm with hm | hm
            · exact Or.inr (Or.inr hm)
            · exact ih b rest.tail m hm

/-- When the confirmation loop ends in cancellation, the cancellation
message has been printed. -/
theorem confirmLoop_cancel_stdout (fuel resp : Nat) (stdin : List StdinEv)
    (h : (confirmLoop fuel resp stdin).status = .cancel) :
    Msg.cancelled ∈ (confirmLoop fuel resp stdin).stdout := by
  induction fuel generalizing resp stdin with
  | zero => simp [confirmLoop] at h
  | succ fuel ih =>
    rcases stdin with _ | ⟨ev, rest⟩
    · by_cases hy : isYes resp = true
      · simp [confirmLoop, hy] at h
      · by_cases hn : isNo resp = true
        · simp [confirmLoop, hy, hn]
        · simp only [confirmLoop, hy, hn, if_false, Bool.false_eq_true] at h ⊢
          simp only [List.mem_cons]
          exact Or.inr (ih resp [] h)
    · rcases ev with _ | b
      · simp [confirmLoop] at h
      · by_cases hy : isYes b = true
        · simp [confirmLoop, hy] at h
        · by_cases hn : isNo b = true
          · simp [confirmLoop, hy, hn]
          · simp only [confirmLoop, hy, hn, if_false, Bool.false_eq_true] at h ⊢
            simp only [List.mem_cons]
            exact Or.inr (ih b rest.tail h)

/-- When the confirmation loop ends in a read failure, exactly the
input-read error message has been printed on stderr. -/
theorem confirmLoop_rfail_stderr (fuel resp : Nat) (stdin : List StdinEv)
    (h : (confirmLoop fuel resp stdin).status = .rfail) :
    (confirmLoop fuel resp stdin).stderr = [Msg.errReadInput] := by
  induction fuel generalizing resp stdin with
  | zero => simp [confirmLoop] at h
  | succ fuel ih =>
    rcases stdin with _ | ⟨ev, rest⟩
    · by_cases hy : isYes resp = true
      · simp [confirmLoop, hy] at h
      · by_cases hn : isNo resp = true
        · simp [confirmLoop, hy, hn] at h
        · simp only [confirmLoop, hy, hn, if_false, Bool.false_eq_true] at h ⊢
          exact ih resp [] h
    · rcases ev with _ | b
      · simp [confirmLoop]
      · by_cases hy : isYes b = true
        · simp [confirmLoop, hy] at h
        · by_cases hn : isNo b = true
          · simp [confirmLoop, hy, hn] at h
          · simp only [confirmLoop, hy, hn, if_false, Bool.false_eq_true] at h ⊢
            exact ih b rest.tail h

/-- The confirmation loop consumes stdin from the front, at most two
events per iteration. -/
theorem confirmLoop_consume (fuel resp : Nat) (stdin : List StdinEv) :
    ∃ t, stdin = t ++ (confirmLoop fuel resp stdin).stdin ∧
      t.length ≤ 2 * (confirmLoop fuel resp stdin).cycles := by
  induction fuel generalizing resp stdin with
  | zero => exact ⟨[], by simp [confirmLoop]⟩
  | succ fuel ih =>
    rcases stdin with _ | ⟨ev, rest⟩
    · by_cases hy : isYes resp = true
      · exact ⟨[], by simp [confirmLoop, hy]⟩
      · by_cases hn : isNo resp = true
        · exact ⟨[], by simp [confirmLoop, hy, hn]⟩
        · obtain ⟨t, ht, hl⟩ := ih resp []
          rcases t with _ | ⟨x, xs⟩
          · refine ⟨[], ?_⟩
            simp only [confirmLoop, hy, hn, if_false, Bool.false_eq_true]
            simpa using ht
          · simp at ht
    · rcases ev with _ | b
      · refine ⟨[.rerr], ?_⟩
        simp [confirmLoop]
      · by_cases hy : isYes b = true
        · rcases rest with _ | ⟨r0, rr⟩
          · exact ⟨[.rbyte b], by simp [confirmLoop, hy]⟩
          · exact ⟨[.rbyte b, r0], by simp [confirmLoop, hy]⟩
        · by_cases hn : isNo b = true
          · rcases rest with _ | ⟨r0, rr⟩
            · exact ⟨[.rbyte b], by simp [confirmLoop, hy, hn]⟩
            · exact ⟨[.rbyte b, r0], by simp [confirmLoop, hy, hn]⟩
          · obtain ⟨t, ht, hl⟩ := ih b rest.tail
            rcases rest with _ | ⟨r0, rr⟩
            · refine ⟨.rbyte b :: t, ?_, ?_⟩
              · simp only [confirmLoop, hy, hn, if_false, Bool.false_eq_true]
                simpa using ht
              · simp only [confirmLoop, hy, hn, if_false, Bool.false_eq_true]
                simp only [List.length_cons]
                omega
            · refine ⟨.rbyte b :: r0 :: t, ?_, ?_⟩
              · simp only [confirmLoop, hy, hn, if_false, Bool.false_eq_true]
                simpa using ht
              · simp only [confirmLoop, hy, hn, if_false, Bool.false_eq_true]
                simp only [List.length_cons]
                omega

/-- With an invalid stale response value and a stdin stream that only ever
delivers invalid answer bytes (or nothing), the confirmation loop is still
running after any number of iterations, has printed one re-prompt per
iteration, and has reported no error. -/
theorem confirmLoop_invalid (fuel resp : Nat) (stdin : List StdinEv)
    (hresp : invalidByte resp = true) (hstdin : allInvalid stdin = true) :
    (confirmLoop fuel resp stdin).status = .looping ∧
    (confirmLoop fuel resp stdin).stdout = List.replicate fuel Msg.invalidInput ∧
    (confirmLoop fuel resp stdin).stderr = [] := by
  induction fuel generalizing resp stdin with
  | zero => simp [confirmLoop]
  | succ fuel ih =>
    have hyr : isYes resp = false := by
      simp only [invalidByte, Bool.not_eq_eq_eq_not, Bool.not_true,
        Bool.or_eq_false_iff] at hresp
      exact hresp.1
    have hnr : isNo resp = false := by
      simp only [invalidByte, Bool.not_eq_eq_eq_not, Bool.not_true,
        Bool.or_eq_false_iff] at hresp
      exact hresp.2
    rcases stdin with _ | ⟨ev, rest⟩
    · have := ih resp [] hresp (by simp [allInvalid])
      simp only [confirmLoop, hyr, hnr, if_false, Bool.false_eq_true]
      simp [this.1, this.2.1, this.2.2, List.replicate_succ]
    · rcases ev with _ | b
      · simp [allInvalid] at hstdin
      · have hb : invalidByte b = true := by
          simp only [allInvalid, List.all_cons, Bool.and_eq_true] at hstdin
          exact hstdin.1
        have hyb : isYes b = false := by
          simp only [invalidByte, Bool.not_eq_eq_eq_not, Bool.not_true,
            Bool.or_eq_false_iff] at hb
          exact hb.1
        have hnb : isNo b = false := by
          simp only [invalidByte, Bool.not_eq_eq_eq_not, Bool.not_true,
            Bool.or_eq_false_iff] at hb
          exact hb.2
        have htl : allInvalid rest.tail = true := by
          simp only [allInvalid, List.all_cons, Bool.and_eq_true] at hstdin
          rcases rest with _ | ⟨r0, rr⟩
          · simp [allInvalid]
          · simp only [List.all_cons, Bool.and_eq_true] at hstdin
            simpa [allInvalid] using hstdin.2.2
        have := ih b rest.tail hb htl
        simp only [confirmLoop, hyb, hnb, if_false, Bool.false_eq_true]
        simp [this.1, this.2.1, this.2.2, List.replicate_succ]

/-- A read of a non-empty remainder delivers at least one byte. -/
theorem chunkLen_pos (k len : Nat) (h : 1 <= len) : 1 <= chunkLen k len := by
  simp only [chunkLen]
  omega

/-- A read never delivers more bytes than remain. -/
theorem chunkLen_le (k len : Nat) : chunkLen k len <= len := by
  simp only [chunkLen]
  omega

/-- Whatever happens, the bytes written by the transfer loop are an
initial segment of the remaining source bytes. -/
theorem copyLoopF_written_take (fuel : Nat) (rem : List Nat) (rs : List REv)
    (ws : List WEv) :
    ∃ m, (copyLoopF fuel rem rs ws).written = rem.take m := by
  induction fuel generalizing rem rs ws with
  | zero => exact ⟨0, by simp [copyLoopF]⟩
  | succ fuel ih =>
    rcases hr : rHead rs with _ | k
    · exact ⟨0, by simp [copyLoopF, hr]⟩
    · rcases rem with _ | ⟨a, rem'⟩
      · exact ⟨0, by simp [copyLoopF, hr]⟩
      · rcases hw : wHead ws with _ | j | _
        · exact ⟨0, by simp [copyLoopF, hr, hw]⟩
        · refine ⟨min (min j (chunkLen k (a :: rem').length - 1))
            (chunkLen k (a :: rem').length), ?_⟩
          simp only [copyLoopF, hr, hw]
          rw [List.take_take]
        · obtain ⟨m, hm⟩ :=
            ih ((a :: rem').drop (chunkLen k (a :: rem').length)) rs.tail ws.tail
          refine ⟨chunkLen k (a :: rem').length + m, ?_⟩
          simp only [copyLoopF, hr, hw]
          rw [hm, List.take_add]

/-- The transfer loop never writes more bytes than it has read. -/
theorem copyLoopF_written_le (fuel : Nat) (rem : List Nat) (rs : List REv)
    (ws : List WEv) :
    (copyLoopF fuel rem rs ws).written.length <= (copyLoopF fuel rem rs ws).totalRead := by
  induction fuel generalizing rem rs ws with
  | zero => simp [copyLoopF]
  | succ fuel ih =>
    rcases hr : rHead rs with _ | k
    · simp [copyLoopF, hr]
    · rcases rem with _ | ⟨a, rem'⟩
      · simp [copyLoopF, hr]
      · rcases hw : wHead ws with _ | j | _
        · simp [copyLoopF, hr, hw]
        · simp only [copyLoopF, hr, hw, List.length_take]
          omega
        · have := ih ((a :: rem').drop (chunkLen k (a :: rem').length))
            rs.tail ws.tail
          simp only [copyLoopF, hr, hw, List.length_append, List.length_take]
          omega

/-- When the transfer loop ends cleanly or with a read failure, every byte
read so far has been written: the totals agree. -/
theorem copyLoopF_eq_of_ok_or_rfail (fuel : Nat) (rem : List Nat) (rs : List REv)
    (ws : List WEv)
    (h : (copyLoopF fuel rem rs ws).status = .ok ∨
      (copyLoopF fuel rem rs ws).status = .rfail) :
    (copyLoopF fuel rem rs ws).written.length = (copyLoopF fuel rem rs ws).totalRead := by
  induction fuel generalizing rem rs ws with
  | zero => simp [copyLoopF]
  | succ fuel ih =>
    rcases hr : rHead rs with _ | k
    · simp [copyLoopF, hr]
    · rcases rem with _ | ⟨a, rem'⟩
      · simp [copyLoopF, hr]
      · rcases hw : wHead ws with _ | j | _
        · simp [copyLoopF, hr, hw] at h
        · simp [copyLoopF, hr, hw] at h
        · have hst := h
          simp only [copyLoopF, hr, hw] at hst
          have heq := ih ((a :: rem').drop (chunkLen k (a :: rem').length))
            rs.tail ws.tail hst
          have hle := chunkLen_le k (a :: rem').length
          simp only [copyLoopF, hr, hw, List.length_append, List.length_take]
          simp only [List.length_cons] at hle heq ⊢
          omega

/-- With enough fuel, a transfer loop that ends cleanly has written the
whole source. -/
theorem copyLoopF_ok_full (fuel : Nat) (rem : List Nat) (rs : List REv)
    (ws : List WEv) (hfuel : rem.length < fuel)
    (h : (copyLoopF fuel rem rs ws).status = .ok) :
    (copyLoopF fuel rem rs ws).written = rem := by
  induction fuel generalizing rem rs ws with
  | zero => omega
  | succ fuel ih =>
    rcases hr : rHead rs with _ | k
    · simp [copyLoopF, hr] at h
    · rcases rem with _ | ⟨a, rem'⟩
      · simp [copyLoopF, hr]
      · rcases hw : wHead ws with _ | j | _
        · simp [copyLoopF, hr, hw] at h
        · simp [copyLoopF, hr, hw] at h
        · have hst := h
          simp only [copyLoopF, hr, hw] at hst
          have hn1 : 1 <= chunkLen k (rem'.length + 1) :=
            chunkLen_pos k _ (by omega)
          have hfuel' :
              ((a :: rem').drop (chunkLen k (a :: rem').length)).length < fuel := by
            simp only [List.length_drop, List.length_cons]
            simp only [List.length_cons] at hfuel
            omega
          have hrec := ih ((a :: rem').drop (chunkLen k (a :: rem').length))
            rs.tail ws.tail hfuel' hst
          simp only [copyLoopF, hr, hw]
          rw [hrec, List.take_append_drop]

/-- A short write is strictly short, and it is the last write call the
transfer loop makes: the write trace ends with the failing call, every
earlier call being complete. -/
theorem copyLoopF_short_trace (fuel : Nat) (rem : List Nat) (rs : List REv)
    (ws : List WEv) (req got : Nat)
    (h : (copyLoopF fuel rem rs ws).status = .wshortFail req got) :
    got < req ∧
      ∃ pre, (copyLoopF fuel rem rs ws).wtrace = pre ++ [(req, (got : Int))] ∧
        ∀ p ∈ pre, p.2 = (p.1 : Int) := by
  induction fuel generalizing rem rs ws with
  | zero => simp [copyLoopF] at h
  | succ fuel ih =>
    rcases hr : rHead rs with _ | k
    · simp [copyLoopF, hr] at h
    · rcases rem with _ | ⟨a, rem'⟩
      · simp [copyLoopF, hr] at h
      · rcases hw : wHead ws with _ | j | _
        · simp [copyLoopF, hr, hw] at h
        · have hn1 : 1 <= chunkLen k (a :: rem').length :=
            chunkLen_pos k _ (by simp)
          simp only [copyLoopF, hr, hw, TStatus.wshortFail.injEq] at h
          obtain ⟨hreq, hgot⟩ := h
          subst hreq
          subst hgot
          refine ⟨by omega, [], ?_, by simp⟩
          simp [copyLoopF, hr, hw]
        · have hst := h
          simp only [copyLoopF, hr, hw] at hst
          obtain ⟨hlt, pre, hpre, hfull⟩ := ih ((a :: rem').drop
            (chunkLen k (a :: rem').length)) rs.tail ws.tail hst
          refine ⟨hlt, (chunkLen k (a :: rem').length,
            ((chunkLen k (a :: rem').length : Nat) : Int)) :: pre, ?_, ?_⟩
          · simp only [copyLoopF, hr, hw]
            rw [hpre]
            simp
          · intro p hp
            rcases List.mem_cons.mp hp with hp | hp
            · rw [hp]
            · exact hfull p hp

/-- A transfer loop that ends cleanly has written the whole source. -/
theorem copyLoop_ok_full (c : List Nat) (rs : List REv) (ws : List WEv)
    (h : (copyLoop c rs ws).status = .ok) : (copyLoop c rs ws).written = c :=
  copyLoopF_ok_full (c.length + 1) c rs ws (by omega) h

/-- When the source cannot be opened, the transfer phase reports the error
naming the source path, exits with status 1 and touches nothing. -/
theorem transfer_src_fail (src dst : String) (e : Env) (out0 : List Msg)
    (sRest : List StdinEv) (cyc : Nat)
    (hsrc : fsGet e.fs src = none ∨ e.srcOpenOk = false) :
    transfer src dst e out0 sRest cyc =
      ⟨some 1, e.fs, out0, [.errOpenSrc src], sRest, [], cyc, [], 0, 0, false, false⟩ := by
  rcases hsg : fsGet e.fs src with _ | c <;>
    rcases hso : e.srcOpenOk with _ | _ <;>
      simp_all [transfer]

/-- The transfer phase neither consumes stdin nor runs prompt cycles: it
passes both observations through. -/
theorem transfer_stdin_cycles (src dst : String) (e : Env) (out0 : List Msg)
    (sRest : List StdinEv) (cyc : Nat) :
    (transfer src dst e out0 sRest cyc).stdinRest = sRest ∧
    (transfer src dst e out0 sRest cyc).cycles = cyc := by
  rcases hsg : fsGet e.fs src with _ | c <;>
    rcases hso : e.srcOpenOk with _ | _
  · simp [transfer, hsg, hso]
  · simp [transfer, hsg, hso]
  · simp [transfer, hsg, hso]
  · rcases hdo : e.dstOpenOk with _ | _
    · simp [transfer, hsg, hso, hdo]
    · rcases hcp : copyLoop c e.rs e.ws with ⟨w, st, wt, tr⟩
      rcases st <;>
        rcases hsc : e.srcCloseOk with _ | _ <;>
          rcases hdc : e.dstCloseOk with _ | _ <;>
            simp [transfer, hsg, hso, hdo, hcp, hsc, hdc]

/-- A transfer phase that exits with status 0 has copied the source
content to the destination in full. -/
theorem transfer_exit0 (src dst : String) (e : Env) (out0 : List Msg)
    (sRest : List StdinEv) (cyc : Nat) (c : List Nat)
    (hsrc : fsGet e.fs src = some c)
    (h0 : (transfer src dst e out0 sRest cyc).exit = some 0) :
    fsGet (transfer src dst e out0 sRest cyc).fs dst = some c := by
  rcases hso : e.srcOpenOk with _ | _
  · rw [transfer_src_fail src dst e out0 sRest cyc (Or.inr hso)] at h0
    simp at h0
  · rcases hdo : e.dstOpenOk with _ | _
    · simp [transfer, hsrc, hso, hdo] at h0
    · rcases hcp : copyLoop c e.rs e.ws with ⟨w, st, wt, tr⟩
      rcases st
      case ok =>
        rcases hsc : e.srcCloseOk with _ | _
        · simp [transfer, hsrc, hso, hdo, hcp, hsc] at h0
        · rcases hdc : e.dstCloseOk with _ | _
          · simp [transfer, hsrc, hso, hdo, hcp, hsc, hdc] at h0
          · have hfull : w = c := by
              have := copyLoop_ok_full c e.rs e.ws (by rw [hcp])
              rw [hcp] at this
              exact this
            simp [transfer, hsrc, hso, hdo, hcp, hsc, hdc, hfull, fsGet_fsSet_self]
      case wfail => simp [transfer, hsrc, hso, hdo, hcp] at h0
      case wshortFail req got => simp [transfer, hsrc, hso, hdo, hcp] at h0
      case rfail => simp [transfer, hsrc, hso, hdo, hcp] at h0

/-- C1: for every existing readable source file, after a run that
terminates with exit status 0 in which the copy was performed (the success
message naming both paths was emitted), the destination file content
equals the source file content byte-for-byte, replacing any prior
destination content. -/
theorem c1_success_copies (e : Env) (src dst : String) (c : List Nat)
    (hargs : e.args = [src, dst]) (hsrc : fsGet e.fs src = some c)
    (h0 : (run e).exit = some 0)
    (hcopy : Msg.success src dst ∈ (run e).stdout) :
    fsGet (run e).fs dst = some c := by
  rcases hd : fsGet e.fs dst with _ | d
  · simp only [run, hargs, hd] at h0 hcopy ⊢
    exact transfer_exit0 src dst e [] e.stdin 0 c hsrc h0
  · have hmem := confirmLoop_stdout_mem e.fuel e.initResponse e.stdin
    rcases hcl : confirmLoop e.fuel e.initResponse e.stdin with ⟨st, r, rest, pout, perr, cyc⟩
    rw [hcl] at hmem
    simp only at hmem
    rcases st
    case proceed =>
      simp only [run, hargs, hd, hcl] at h0 hcopy ⊢
      exact transfer_exit0 src dst e (.promptOverwrite dst :: pout) rest cyc c hsrc h0
    case cancel =>
      simp only [run, hargs, hd, hcl, List.mem_cons] at hcopy
      rcases hcopy with hcopy | hcopy
      · cases hcopy
      · rcases hmem (Msg.success src dst) hcopy with hm | hm | hm <;> cases hm
    case rfail =>
      simp only [run, hargs, hd, hcl] at h0
      cases h0
    case looping =>
      simp only [run, hargs, hd, hcl] at h0
      cases h0

/-- C1 witness: on a two-byte source and an absent destination with all
system calls succeeding, the run exits 0 and the destination holds the
source bytes. -/
theorem c1_success_copies_witness :
    (run envC1).exit = some 0 ∧ fsGet (run envC1).fs "b" = some [104, 105] :=
  ⟨by decide,
    c1_success_copies envC1 "a" "b" [104, 105] rfl (by decide) (by decide) (by decide)⟩

/-- C2: for every invocation whose argument count besides the program
identifier is not exactly two, the program emits the usage message to
stderr, exits with status 1, consumes no stdin, opens no file and mutates
no file. -/
theorem c2_bad_argc (e : Env) (h : e.args.length ≠ 2) :
    (run e).exit = some 1 ∧ (run e).stderr = [Msg.usage] ∧
    (run e).fs = e.fs ∧ (run e).opens = [] ∧ (run e).stdinRest = e.stdin := by
  rcases e with ⟨args, fs, stdin, r0, fuel, so, dok, rs, ws, sc, dc⟩
  rcases args with _ | ⟨a, args⟩
  · simp [run]
  · rcases args with _ | ⟨b, args⟩
    · simp [run]
    · rcases args with _ | ⟨x, args⟩
      · simp at h
      · simp [run]

/-- C2 witness: invoking with zero arguments yields status 1, the usage
message, and no side effect. -/
theorem c2_bad_argc_witness :
    envC2.args.length ≠ 2 ∧
    ((run envC2).exit = some 1 ∧ (run envC2).stderr = [Msg.usage] ∧
      (run envC2).fs = envC2.fs ∧ (run envC2).opens = [] ∧
      (run envC2).stdinRest = envC2.stdin) :=
  ⟨by decide, c2_bad_argc envC2 (by decide)⟩

/-- C3: for every run whose destination exists and whose confirmation
loop ends in cancellation (the answer given was n or N), the program
prints the cancellation message, exits with status 0, leaves the file
system unchanged and never opens the source. -/
theorem c3_cancel (e : Env) (src dst : String) (d : List Nat)
    (hargs : e.args = [src, dst]) (hdst : fsGet e.fs dst = some d)
    (hc : (confirmLoop e.fuel e.initResponse e.stdin).status = .cancel) :
    (run e).exit = some 0 ∧ Msg.cancelled ∈ (run e).stdout ∧
    (run e).fs = e.fs ∧ (run e).opens = [] := by
  have hmem := confirmLoop_cancel_stdout e.fuel e.initResponse e.stdin hc
  rcases hcl : confirmLoop e.fuel e.initResponse e.stdin with ⟨st, r, rest, pout, perr, cyc⟩
  rw [hcl] at hc hmem
  simp only at hc hmem
  subst hc
  simp [run, hargs, hdst, hcl, hmem]

/-- C3 witness: destination exists, the user answers n followed by a line
terminator. -/
theorem c3_cancel_witness :
    (run envC3).exit = some 0 ∧ Msg.cancelled ∈ (run envC3).stdout ∧
    (run envC3).fs = envC3.fs ∧ (run envC3).opens = [] :=
  c3_cancel envC3 "a" "b" [9] rfl (by decide) (by decide)

/-- C4: when the destination exists, the stale response value is invalid
and stdin only ever delivers invalid answer bytes, the program never
terminates: after any number of prompt iterations it is still running,
has emitted one re-prompt per iteration after the initial prompt, and has
reported no error. -/
theorem c4_invalid_loops (e : Env) (src dst : String) (d : List Nat)
    (hargs : e.args = [src, dst]) (hdst : fsGet e.fs dst = some d)
    (hresp : invalidByte e.initResponse = true)
    (hstdin : allInvalid e.stdin = true) :
    (run e).exit = none ∧
    (run e).stdout = Msg.promptOverwrite dst :: List.replicate e.fuel Msg.invalidInput ∧
    (run e).stderr = [] := by
  obtain ⟨h1, h2, h3⟩ := confirmLoop_invalid e.fuel e.initResponse e.stdin hresp hstdin
  rcases hcl : confirmLoop e.fuel e.initResponse e.stdin with ⟨st, r, rest, pout, perr, cyc⟩
  rw [hcl] at h1 h2 h3
  simp only at h1 h2 h3
  subst h1
  subst h2
  subst h3
  simp [run, hargs, hdst, hcl]

/-- C4 witness: destination exists, stdin delivers the invalid byte x and
a line terminator; after three observed iterations the program has not
terminated and has printed three re-prompts. -/
theorem c4_invalid_loops_witness :
    (run envC4).exit = none ∧
    (run envC4).stdout =
      Msg.promptOverwrite "b" :: List.replicate 3 Msg.invalidInput ∧
    (run envC4).stderr = [] :=
  c4_invalid_loops envC4 "a" "b" [9] rfl (by decide) (by decide) (by decide)

/-- C5 counterexample: the destination exists, the answer-byte read
delivers y and the read of the trailing line terminator fails; the claim
says any read failure during a prompt cycle is fatal with an error
message, yet the run consumes both events in a single cycle and exits
with status 0 and an empty stderr. -/
theorem c5_counterexample :
    envC5.stdin = [StdinEv.rbyte 121, StdinEv.rerr] ∧
    (run envC5).stdinRest = [] ∧ (run envC5).cycles = 1 ∧
    (run envC5).exit = some 0 ∧ (run envC5).stderr = [] := by
  decide

/-- C5 (amended): a failure of the answer-byte read during the
confirmation prompt is fatal: the program emits the input-read error and
exits with status 1.  (A failure of the read of the trailing line
terminator is ignored, since line 104 of the source discards that read's
return value.) -/
theorem c5_amended_rfail_fatal (e : Env) (src dst : String) (d : List Nat)
    (hargs : e.args = [src, dst]) (hdst : fsGet e.fs dst = some d)
    (hc : (confirmLoop e.fuel e.initResponse e.stdin).status = .rfail) :
    (run e).exit = some 1 ∧ (run e).stderr = [Msg.errReadInput] := by
  have hstderr := confirmLoop_rfail_stderr e.fuel e.initResponse e.stdin hc
  rcases hcl : confirmLoop e.fuel e.initResponse e.stdin with ⟨st, r, rest, pout, perr, cyc⟩
  rw [hcl] at hc hstderr
  simp only at hc hstderr
  subst hc
  subst hstderr
  simp [run, hargs, hdst, hcl]

/-- C5 amended witness: destination exists and the very first answer-byte
read fails. -/
theorem c5_amended_rfail_fatal_witness :
    (run envC5w).exit = some 1 ∧ (run envC5w).stderr = [Msg.errReadInput] :=
  c5_amended_rfail_fatal envC5w "a" "b" [9] rfl (by decide) (by decide)

/-- C6: when opening the source fails (missing file or denied
permission), in any run that reaches the open (destination absent, or
overwrite confirmed), the program emits an error naming the source path,
exits with status 1, opens no file, and leaves the file system - in
particular any destination - untouched. -/
theorem c6_src_open_fail (e : Env) (src dst : String)
    (hargs : e.args = [src, dst])
    (hsrc : fsGet e.fs src = none ∨ e.srcOpenOk = false)
    (hgo : fsGet e.fs dst = none ∨
      (confirmLoop e.fuel e.initResponse e.stdin).status = .proceed) :
    (run e).exit = some 1 ∧ Msg.errOpenSrc src ∈ (run e).stderr ∧
    (run e).fs = e.fs ∧ (run e).opens = [] := by
  rcases hgo with hgo | hgo
  · simp only [run, hargs, hgo]
    rw [transfer_src_fail src dst e [] e.stdin 0 hsrc]
    simp
  · rcases hcl : confirmLoop e.fuel e.initResponse e.stdin with ⟨st, r, rest, pout, perr, cyc⟩
    rw [hcl] at hgo
    simp only at hgo
    subst hgo
    rcases hd : fsGet e.fs dst with _ | d
    · simp only [run, hargs, hd]
      rw [transfer_src_fail src dst e [] e.stdin 0 hsrc]
      simp
    · simp only [run, hargs, hd, hcl]
      rw [transfer_src_fail src dst e (.promptOverwrite dst :: pout) rest cyc hsrc]
      simp

/-- C6 witness: neither source nor destination exists. -/
theorem c6_src_open_fail_witness :
    (run envC6).exit = some 1 ∧ Msg.errOpenSrc "a" ∈ (run envC6).stderr ∧
    (run envC6).fs = envC6.fs ∧ (run envC6).opens = [] :=
  c6_src_open_fail envC6 "a" "b" rfl (Or.inl (by decide)) (Or.inl (by decide))

/-- C7: in every run whose transfer loop hits a short write, the program
treats it as fatal: it emits the incomplete-write error, closes both file
handles, exits with status 1, and performs no retry - the short write is
strictly short and is the last write call of the run, every earlier write
call having been complete. -/
theorem c7_short_write (e : Env) (src dst : String) (c : List Nat) (req got : Nat)
    (hargs : e.args = [src, dst]) (hdst : fsGet e.fs dst = none)
    (hsrc : fsGet e.fs src = some c) (hso : e.srcOpenOk = true)
    (hdo : e.dstOpenOk = true)
    (hshort : (copyLoop c e.rs e.ws).status = .wshortFail req got) :
    (run e).exit = some 1 ∧ (run e).stderr = [Msg.errShortWrite] ∧
    (run e).srcClosed = true ∧ (run e).dstClosed = true ∧ got < req ∧
    ∃ pre, (run e).wtrace = pre ++ [(req, (got : Int))] ∧
      ∀ p ∈ pre, p.2 = (p.1 : Int) := by
  obtain ⟨hlt, pre, hpre, hfull⟩ :=
    copyLoopF_short_trace (c.length + 1) c e.rs e.ws req got hshort
  rcases hcp : copyLoop c e.rs e.ws with ⟨w, st, wt, tr⟩
  rw [show copyLoopF (c.length + 1) c e.rs e.ws = copyLoop c e.rs e.ws from rfl,
    hcp] at hpre
  rw [hcp] at hshort
  simp only at hshort hpre
  subst hshort
  simp only [run, hargs, hdst]
  simp only [transfer, hsrc, hso, hdo, hcp, if_true]
  exact ⟨by simp, by simp, by simp, by simp, hlt, pre, hpre, hfull⟩

/-- C7 witness: two-byte source, first write delivers zero of the two
requested bytes. -/
theorem c7_short_write_witness :
    (run envC7).exit = some 1 ∧ (run envC7).stderr = [Msg.errShortWrite] ∧
    (run envC7).srcClosed = true ∧ (run envC7).dstClosed = true ∧ 0 < 2 ∧
    ∃ pre, (run envC7).wtrace = pre ++ [(2, ((0 : Nat) : Int))] ∧
      ∀ p ∈ pre, p.2 = (p.1 : Int) :=
  c7_short_write envC7 "a" "b" [1, 2] 2 0 rfl (by decide) (by decide) rfl rfl
    (by decide)

/-- C8 counterexample: the destination exists and stdin holds the single
byte y before end of stream; the claim says every prompt cycle consumes
exactly one answer character plus its trailing line terminator (no fewer
bytes), yet this run's single prompt cycle consumes only the one available
byte and the program proceeds, exiting 0. -/
theorem c8_counterexample :
    fsGet envC8.fs "b" = some [9] ∧ envC8.stdin.length = 1 ∧
    (run envC8).cycles = 1 ∧ (run envC8).stdinRest = [] ∧
    (run envC8).exit = some 0 := by
  decide

/-- C8 (amended): standard input is consumed only when the destination
pre-exists, and each confirmation prompt cycle consumes at most two input
events - the answer byte plus whatever event follows it, which need not
be a line terminator - with fewer consumed when the stream ends
mid-cycle; consumption is always from the front of the stream. -/
theorem c8_amended_consumption (e : Env) (src dst : String)
    (hargs : e.args = [src, dst]) :
    (fsGet e.fs dst = none → (run e).stdinRest = e.stdin) ∧
    (∃ t, e.stdin = t ++ (run e).stdinRest ∧
      t.length ≤ 2 * (run e).cycles) := by
  rcases hd : fsGet e.fs dst with _ | d
  · have hts := transfer_stdin_cycles src dst e [] e.stdin 0
    constructor
    · intro _
      simp only [run, hargs, hd]
      exact hts.1
    · refine ⟨[], ?_, by simp⟩
      simp only [run, hargs, hd]
      rw [hts.1]
      rfl
  · constructor
    · intro h
      exact absurd h (by simp)
    · obtain ⟨t, ht, hl⟩ := confirmLoop_consume e.fuel e.initResponse e.stdin
      rcases hcl : confirmLoop e.fuel e.initResponse e.stdin with ⟨st, r, rest, pout, perr, cyc⟩
      rw [hcl] at ht hl
      simp only at ht hl
      rcases st
      case proceed =>
        have hts := transfer_stdin_cycles src dst e (.promptOverwrite dst :: pout) rest cyc
        refine ⟨t, ?_, ?_⟩
        · simp only [run, hargs, hd, hcl]
          rw [hts.1]
          exact ht
        · simp only [run, hargs, hd, hcl]
          rw [hts.2]
          exact hl
      case cancel => exact ⟨t, by simp only [run, hargs, hd, hcl]; exact ht,
          by simp only [run, hargs, hd, hcl]; exact hl⟩
      case rfail => exact ⟨t, by simp only [run, hargs, hd, hcl]; exact ht,
          by simp only [run, hargs, hd, hcl]; exact hl⟩
      case looping => exact ⟨t, by simp only [run, hargs, hd, hcl]; exact ht,
          by simp only [run, hargs, hd, hcl]; exact hl⟩

/-- C8 amended witness: destination exists, user answers n plus a line
terminator; two events are consumed in one cycle. -/
theorem c8_amended_consumption_witness :
    (fsGet envC8w.fs "b" = none → (run envC8w).stdinRest = envC8w.stdin) ∧
    (∃ t, envC8w.stdin = t ++ (run envC8w).stdinRest ∧
      t.length ≤ 2 * (run envC8w).cycles) :=
  c8_amended_consumption envC8w "a" "b" rfl

/-- C9 counterexample: two-byte source, the single write call of the run
fails; at the moment of this fatal transfer error two bytes have been
read but zero bytes written, so the claimed equality of total bytes
written and total bytes read does not hold at fatal-error moments. -/
theorem c9_counterexample :
    (run envC9).exit = some 1 ∧ (run envC9).totalRead = 2 ∧
    (run envC9).totalWritten = 0 := by
  decide

/-- C9 (amended): whenever the transfer phase runs, the destination ends
holding an initial segment of the source content and never more bytes
than were read; the totals of bytes written and read agree when the loop
ends cleanly or with a read failure (after a write failure the last chunk
read may be unwritten). -/
theorem c9_amended_prefix (e : Env) (src dst : String) (c : List Nat)
    (hargs : e.args = [src, dst]) (hdst : fsGet e.fs dst = none)
    (hsrc : fsGet e.fs src = some c) (hso : e.srcOpenOk = true)
    (hdo : e.dstOpenOk = true) :
    (∃ m, fsGet (run e).fs dst = some (c.take m) ∧
      (run e).totalWritten = (c.take m).length) ∧
    (run e).totalWritten ≤ (run e).totalRead ∧
    ((copyLoop c e.rs e.ws).status = .ok ∨
        (copyLoop c e.rs e.ws).status = .rfail →
      (run e).totalWritten = (run e).totalRead) := by
  obtain ⟨m, hm⟩ := copyLoopF_written_take (c.length + 1) c e.rs e.ws
  have hle := copyLoopF_written_le (c.length + 1) c e.rs e.ws
  rcases hcp : copyLoop c e.rs e.ws with ⟨w, st, wt, tr⟩
  have hcpF : copyLoopF (c.length + 1) c e.rs e.ws = ⟨w, st, wt, tr⟩ := hcp
  rw [hcpF] at hm hle
  simp only at hm hle
  subst hm
  have heq : st = TStatus.ok ∨ st = TStatus.rfail → (c.take m).length = tr := by
    intro hst
    have h2 := copyLoopF_eq_of_ok_or_rfail (c.length + 1) c e.rs e.ws
      (by rw [hcpF]; simpa using hst)
    rw [hcpF] at h2
    simpa using h2
  have htr : (transfer src dst e [] e.stdin 0).fs = fsSet e.fs dst (c.take m) ∧
      (transfer src dst e [] e.stdin 0).totalWritten = (c.take m).length ∧
      (transfer src dst e [] e.stdin 0).totalRead = tr := by
    rcases st <;>
      rcases hsc : e.srcCloseOk with _ | _ <;>
        rcases hdc : e.dstCloseOk with _ | _ <;>
          simp [transfer, hsrc, hso, hdo, hcp, hsc, hdc]
  simp only [run, hargs, hdst]
  refine ⟨⟨m, ?_, ?_⟩, ?_, ?_⟩
  · rw [htr.1, fsGet_fsSet_self]
  · exact htr.2.1
  · rw [htr.2.1, htr.2.2]
    exact hle
  · intro hst
    rw [htr.2.1, htr.2.2]
    exact heq hst

/-- C9 amended witness: three-byte source, first read delivers one byte
written in full, second write call fails: the destination holds a proper
prefix of the source. -/
theorem c9_amended_prefix_witness :
    (∃ m, fsGet (run envC9w).fs "b" = some ([1, 2, 3].take m) ∧
      (run envC9w).totalWritten = ([1, 2, 3].take m).length) ∧
    (run envC9w).totalWritten ≤ (run envC9w).totalRead ∧
    ((copyLoop [1, 2, 3] envC9w.rs envC9w.ws).status = .ok ∨
        (copyLoop [1, 2, 3] envC9w.rs envC9w.ws).status = .rfail →
      (run envC9w).totalWritten = (run envC9w).totalRead) :=
  c9_amended_prefix envC9w "a" "b" [1, 2, 3] rfl (by decide) (by decide) rfl rfl

/-- C10: a zero-length read (end of stream) at the confirmation prompt is
not an error and does not terminate the program: with stdin exhausted the
loop consumes nothing, prints no error, re-prompts once per iteration for
any number of iterations when the retained response value is invalid, and
re-tests that previous response value - a retained y/Y proceeds and a
retained n/N cancels without any input being read. -/
theorem c10_eof_retests :
    (∀ fuel resp, invalidByte resp = true →
      (confirmLoop fuel resp []).status = .looping ∧
      (confirmLoop fuel resp []).stderr = [] ∧
      (confirmLoop fuel resp []).stdout = List.replicate fuel Msg.invalidInput ∧
      (confirmLoop fuel resp []).stdin = []) ∧
    (∀ fuel resp, isYes resp = true →
      (confirmLoop (fuel + 1) resp []).status = .proceed) ∧
    (∀ fuel resp, isNo resp = true →
      (confirmLoop (fuel + 1) resp []).status = .cancel) := by
  refine ⟨?_, ?_, ?_⟩
  · intro fuel resp hresp
    obtain ⟨h1, h2, h3⟩ := confirmLoop_invalid fuel resp [] hresp (by simp [allInvalid])
    obtain ⟨t, ht, _⟩ := confirmLoop_consume fuel resp []
    refine ⟨h1, h3, h2, ?_⟩
    rcases List.append_eq_nil.mp ht.symm with ⟨_, h⟩
    exact h
  · intro fuel resp h
    simp [confirmLoop, h]
  · intro fuel resp h
    have hy : isYes resp = false := by
      have h2 := h
      simp only [isNo, Bool.or_eq_true, beq_iff_eq] at h2
      simp only [isYes, Bool.or_eq_false_iff, beq_eq_false_iff_ne, ne_eq]
      omega
    simp [confirmLoop, h, hy]

/-- C10 witness: with stdin exhausted, an invalid retained byte loops, a
retained y proceeds, a retained n cancels. -/
theorem c10_eof_retests_witness :
    (confirmLoop 5 120 []).status = .looping ∧
    (confirmLoop 4 121 []).status = .proceed ∧
    (confirmLoop 4 110 []).status = .cancel :=
  ⟨(c10_eof_retests.1 5 120 (by decide)).1,
    c10_eof_retests.2.1 3 121 (by decide),
    c10_eof_retests.2.2 3 110 (by decide)⟩

end MyCopy
